import Mathlib

/-!
Verification development for the `rules_esbuild` launcher and its
bazel-sandbox resolver plugin.

The embedding translates the two source files:

* `src/esbuild/private/plugins/bazel-sandbox.js` — the sandbox-aware
  module resolver plugin (`bazelSandboxPlugin` / `resolveInExecroot`);
* `src/esbuild/private/launcher.js` — the build-argument assembly
  (`processConfigFile` and the merge step of `runOneBuild`).

JavaScript strings are modelled as Lean `String` (operated on through
their character lists so everything kernel-reduces); Node's posix
`path.join` is modelled faithfully, including segment normalization;
filesystem access (`fs.lstat` / `fs.readlink`) is a function-valued
structure; thrown exceptions are `Except` errors.
-/

set_option maxRecDepth 100000

namespace RulesEsbuild

/-! ## Model of Node `path` (posix) and JS string operations -/

/-- Split a character list on a separator character, keeping empty
segments, mirroring `String.prototype.split` / the segment scan inside
Node's `normalizeString`. -/
def splitOnChar (c : Char) : List Char → List (List Char)
  | [] => [[]]
  | x :: xs =>
    match splitOnChar c xs with
    | [] => [[]]
    | s :: rest => if x = c then [] :: s :: rest else (x :: s) :: rest

/-- One step of Node's `normalizeString` segment processing, with the
accumulator kept in reverse order (head = most recent segment). Empty
and `.` segments are dropped; `..` pops the previous segment unless the
accumulator is empty or already ends in `..`, in which case it is kept
only when `allowAboveRoot` (i.e. the path is relative). -/
def normStep (allowAboveRoot : Bool) (acc : List (List Char)) (seg : List Char) : List (List Char) :=
  if seg = [] then acc
  else if seg = ['.'] then acc
  else if seg = ['.', '.'] then
    match acc with
    | [] => if allowAboveRoot then [['.', '.']] else []
    | lastSeg :: rest =>
      if lastSeg = ['.', '.'] then
        (if allowAboveRoot then ['.', '.'] :: lastSeg :: rest else lastSeg :: rest)
      else rest
  else seg :: acc

/-- Join segments with `/` separators (inverse of splitting). -/
def joinSegs : List (List Char) → List Char
  | [] => []
  | [s] => s
  | s :: rest => s ++ '/' :: joinSegs rest

/-- Node's posix `path.normalize` on a character list: resolve `.` and
`..` segments, collapse repeated separators, preserve a trailing
separator, keep the leading separator of an absolute path. -/
def normalizeChars (l : List Char) : List Char :=
  match l with
  | [] => ['.']
  | c0 :: rest =>
    let isAbs : Bool := c0 == '/'
    let trailing : Bool :=
      match (c0 :: rest).getLast? with
      | some c => c == '/'
      | none => false
    let segs := ((splitOnChar '/' (c0 :: rest)).foldl (normStep !isAbs) []).reverse
    let core := joinSegs segs
    if core = [] then
      (if isAbs then ['/'] else if trailing then ['.', '/'] else ['.'])
    else
      let core2 := if trailing then core ++ ['/'] else core
      if isAbs then '/' :: core2 else core2

/-- Node's posix `path.join` restricted to two arguments, as the plugin
uses it: drop empty arguments, join with `/`, normalize; `"."` when
everything is empty. -/
def pathJoin (a b : String) : String :=
  match [a.data, b.data].filter (fun s => !s.isEmpty) with
  | [] => "."
  | parts => ⟨normalizeChars (joinSegs parts)⟩

/-- JS `String.prototype.startsWith`. -/
def jsStartsWith (s pre : String) : Bool :=
  pre.data.isPrefixOf s.data

/-- Index of the first occurrence of `need` in `hay`, if any
(JS `indexOf` before its `-1` encoding). -/
def listIndexOf : List Char → List Char → Option Nat
  | [], need => if need = [] then some 0 else none
  | h :: t, need =>
    if need.isPrefixOf (h :: t) then some 0
    else (listIndexOf t need).map (· + 1)

/-- JS `String.prototype.includes`. -/
def strIncludes (s sub : String) : Bool :=
  (listIndexOf s.data sub.data).isSome

/-- JS `String.prototype.indexOf`, with `-1` for "not found". -/
def jsIndexOf (s sub : String) : Int :=
  match listIndexOf s.data sub.data with
  | some n => (n : Int)
  | none => -1

/-- JS `String.prototype.substring` with one argument (negative start
clamps to 0, starts past the end yield the empty string). -/
def jsSubstring (s : String) (start : Int) : String :=
  ⟨s.data.drop start.toNat⟩

/-! ## Model of `src/esbuild/private/plugins/bazel-sandbox.js` -/

/-- The part of `fs.Stats` the plugin reads. -/
structure Stat where
  isSymbolicLink : Bool
deriving Repr, DecidableEq

/-- Outcome of a Node `fs/promises` call: a value, or a rejection whose
error carries a `code` string (`"ENOENT"` for a missing file). -/
inductive FsOutcome (α : Type) where
  | ok (val : α)
  | err (code : String)
deriving Repr, DecidableEq

/-- The filesystem capabilities used by the fast path: `fs.lstat` and
`fs.readlink`. -/
structure FS where
  lstat : String → FsOutcome Stat
  readlink : String → FsOutcome String

/-- An esbuild resolution result: the resolved path together with a
(possibly empty) list of resolution errors. The fast path constructs
results with no errors. -/
structure ResolveResult where
  path : String
  errors : List String
deriving Repr, DecidableEq

/-- An exception thrown out of the plugin: a propagated filesystem
error (identified by its `code`), or the sandbox-escape `Error` with
its message. -/
inductive ResolveError where
  | fsError (code : String)
  | escape (msg : String)
deriving Repr, DecidableEq

/-- The two environment-supplied sandbox roots read at module load:
`BAZEL_BINDIR` and `JS_BINARY__EXECROOT`. -/
structure SandboxEnv where
  bindir : String
  execroot : String
deriving Repr, DecidableEq

/-- The plugin-private marker object stored in `pluginData`. -/
structure PluginData where
  executedSandboxPlugin : Bool
deriving Repr, DecidableEq

/-- The `otherOptions` of an `onResolve` request that the plugin uses:
the originating directory and the opaque forwarding data. -/
structure ResolveOptions where
  resolveDir : String
  pluginData : Option PluginData
deriving Repr, DecidableEq

/-- The message of the `Error` thrown on an unrecoverable sandbox
escape (bazel-sandbox.js line 79-81). -/
def escapeMessage (bindir p : String) : String :=
  "Error: esbuild resolved a path outside of BAZEL_BINDIR (" ++ bindir ++ "): " ++ p

/-- The fast path of `resolveInExecroot` (bazel-sandbox.js lines
43-55): for a specifier starting with `.`, join it to `resolveDir`,
`lstat` it, follow one level of symlink via `readlink`, and swallow
`ENOENT` (leaving the result unset, `Option.none`); any other
filesystem error is rethrown. -/
def fastPathResolve (fs : FS) (resolveDir importPath : String) :
    Except ResolveError (Option ResolveResult) :=
  if jsStartsWith importPath "." then
    let resolvedPath := pathJoin resolveDir importPath
    match fs.lstat resolvedPath with
    | .err code => if code ≠ "ENOENT" then .error (.fsError code) else .ok none
    | .ok st =>
      if st.isSymbolicLink then
        match fs.readlink (pathJoin resolveDir importPath) with
        | .err code => if code ≠ "ENOENT" then .error (.fsError code) else .ok none
        | .ok target => .ok (some { path := target, errors := [] })
      else .ok (some { path := resolvedPath, errors := [] })
  else .ok none

/-- The post-processing of a resolution result (bazel-sandbox.js lines
61-95): pass errors through, pass non-path specifiers through, and for
a path outside the execroot either throw the sandbox-escape `Error`
(if `bindir` does not occur in it) or splice the path back under the
execroot at the first occurrence of `bindir`. -/
def checkResultPath (env : SandboxEnv) (result : ResolveResult) :
    Except ResolveError ResolveResult :=
  if result.errors.length ≠ 0 then .ok result
  else if !jsStartsWith result.path "." && !jsStartsWith result.path "/" &&
      !jsStartsWith result.path "\\" then
    .ok result
  else if !jsStartsWith result.path env.execroot then
    if !strIncludes result.path env.bindir then
      .error (.escape (escapeMessage env.bindir result.path))
    else
      .ok { result with
            path := pathJoin env.execroot
              (jsSubstring result.path (jsIndexOf result.path env.bindir)) }
  else .ok result

/-- `resolveInExecroot` (bazel-sandbox.js lines 35-96): fast path first;
if it produced no result, delegate to `build.resolve` (modelled as the
`resolver` parameter); then post-process the result. -/
def resolveInExecroot (env : SandboxEnv) (fs : FS)
    (resolver : String → ResolveOptions → ResolveResult)
    (importPath : String) (otherOptions : ResolveOptions) :
    Except ResolveError ResolveResult :=
  match fastPathResolve fs otherOptions.resolveDir importPath with
  | .error e => .error e
  | .ok (some result) => checkResultPath env result
  | .ok none => checkResultPath env (resolver importPath otherOptions)

/-- Set the recursion-guard marker in the request's forwarding data
(bazel-sandbox.js lines 23-26). -/
def markPluginData (opts : ResolveOptions) : ResolveOptions :=
  { opts with pluginData := some { executedSandboxPlugin := true } }

/-- The `onResolve` callback installed by `bazelSandboxPlugin`
(bazel-sandbox.js lines 15-30): return `none` (no override, i.e. the
JS `return undefined`) when the recursion marker is already set;
otherwise set the marker and run `resolveInExecroot`. -/
def bazelSandboxOnResolve (env : SandboxEnv) (fs : FS)
    (resolver : String → ResolveOptions → ResolveResult)
    (importPath : String) (otherOptions : ResolveOptions) :
    Option (Except ResolveError ResolveResult) :=
  match otherOptions.pluginData with
  | some pd =>
    if pd.executedSandboxPlugin then none
    else some (resolveInExecroot env fs resolver importPath (markPluginData otherOptions))
  | none => some (resolveInExecroot env fs resolver importPath (markPluginData otherOptions))

/-! ## Model of `src/esbuild/private/launcher.js` (argument assembly) -/

/-- A JSON-ish JavaScript value, as held in the parsed parameter files
and the configuration module's default export. `null` models both JS
`null` and `undefined` (the code treats them identically: both are
skipped by the `value === null || value === void 0` check). -/
inductive JVal where
  | null
  | bool (b : Bool)
  | num (n : Int)
  | str (s : String)
  | arr (elems : List JVal)
  | obj (fields : List (String × JVal))
deriving Repr

/-- The `value === null || value === void 0` check of the fold. -/
def JVal.isNull : JVal → Bool
  | .null => true
  | _ => false

/-- A JS object modelled as an insertion-ordered association list. -/
abbrev JObj := List (String × JVal)

/-- Property lookup `o[k]` (first entry wins; a well-formed JS object
has each key at most once). -/
def getKey : JObj → String → Option JVal
  | [], _ => none
  | (k', v) :: rest, k => if k' == k then some v else getKey rest k

/-- `Object.prototype.hasOwnProperty`. -/
def hasKey (o : JObj) (k : String) : Bool :=
  (getKey o k).isSome

/-- Property assignment `o[k] = v`: replace the entry in place when the
key is present (preserving insertion order, as JS objects do), else
append the new entry at the end. -/
def setKey : JObj → String → JVal → JObj
  | [], k, v => [(k, v)]
  | (k₀, v₀) :: rest, k, v =>
    if k₀ == k then (k, v) :: rest else (k₀, v₀) :: setKey rest k v

/-- The object-spread merge `{...a, ...b}`: start from `a` and assign
every entry of `b` in order, so `b` wins on key collision. -/
def spreadMerge (a b : JObj) : JObj :=
  b.foldl (fun acc p => setKey acc p.1 p.2) a

/-- A diagnostic emitted by `processConfigFile`, kept structurally (the
key it concerns and the config file path); `Warning.render` gives the
exact string written to standard error. -/
inductive Warning where
  | ignored (key configFilePath : String)
  | unmergeable (key configFilePath : String)
deriving Repr, DecidableEq

/-- The configuration key a warning names. -/
def Warning.key : Warning → String
  | .ignored k _ => k
  | .unmergeable k _ => k

/-- The exact text passed to `console.error` (launcher.js lines 71-73
and 89-91). -/
def Warning.render : Warning → String
  | .ignored k cfp =>
    "[WARNING] esbuild configuration property '" ++ k ++ "' from '" ++ cfp ++
      "' will be ignored and overridden"
  | .unmergeable k cfp =>
    "[WARNING] esbuild configuration property '" ++ k ++ "' from '" ++ cfp ++
      "' could not be merged"

/-- launcher.js lines 51-61. -/
def IGNORED_CONFIG_KEYS : List String :=
  ["bundle", "entryPoints", "external", "metafile", "outdir", "outfile",
   "preserveSymlinks", "sourcemap", "splitting"]

/-- launcher.js line 63. -/
def MERGE_CONFIG_KEYS : List String := ["define"]

/-- The fields contributed by object-spreading a value, `{...v}`:
objects contribute their fields, arrays and strings their indexed
elements, primitives and `null`/`undefined` nothing. -/
def spreadFieldsOf : JVal → List (String × JVal)
  | .obj fields => fields
  | .arr elems => elems.enum.map (fun p => (toString p.1, p.2))
  | .str s => s.data.enum.map (fun p => (toString p.1, JVal.str ⟨[p.2]⟩))
  | _ => []

/-- The elements contributed by array-spreading a value, `[...v]`:
arrays and strings are iterable; spreading anything else throws a
`TypeError`. -/
def arrSpreadElems : JVal → Except String (List JVal)
  | .arr elems => .ok elems
  | .str s => .ok (s.data.map (fun c => JVal.str ⟨[c]⟩))
  | _ => .error "TypeError: value is not iterable"

/-- One step of the `Object.entries(config).reduce` fold of
`processConfigFile` (launcher.js lines 65-97), carrying the accumulator
object together with the warnings emitted so far. -/
def processEntry (configFilePath : String) (existingArgs : JObj)
    (st : JObj × List Warning) (entry : String × JVal) :
    Except String (JObj × List Warning) :=
  let (prev, warnings) := st
  let (key, value) := entry
  if value.isNull then .ok (prev, warnings)
  else if IGNORED_CONFIG_KEYS.contains key then
    .ok (prev, warnings ++ [.ignored key configFilePath])
  else if MERGE_CONFIG_KEYS.contains key && hasKey existingArgs key then
    let existing := (getKey existingArgs key).getD .null
    match value with
    | .arr elems =>
      match arrSpreadElems existing with
      | .error e => .error e
      | .ok existingElems => .ok (setKey prev key (.arr (elems ++ existingElems)), warnings)
    | .obj fields =>
      .ok (setKey prev key (.obj (spreadMerge fields (spreadFieldsOf existing))), warnings)
    | _ => .ok (prev, warnings ++ [.unmergeable key configFilePath])
  else .ok (setKey prev key value, warnings)

/-- Left fold of `processEntry` over the configuration entries,
stopping at the first thrown `TypeError`. -/
def processFold (configFilePath : String) (existingArgs : JObj)
    (entries : List (String × JVal)) (st : JObj × List Warning) :
    Except String (JObj × List Warning) :=
  match entries with
  | [] => .ok st
  | e :: rest =>
    match processEntry configFilePath existingArgs st e with
    | .error msg => .error msg
    | .ok st' => processFold configFilePath existingArgs rest st'

/-- The merge performed by `processConfigFile` (launcher.js lines
65-97) once the configuration module is loaded: fold its entries into
an empty accumulator, starting with no warnings. The `config` argument
is the module's default export as an entry list (`Object.entries`
yields each own key once, in insertion order). -/
def processConfigFile (configFilePath : String) (config existingArgs : JObj) :
    Except String (JObj × List Warning) :=
  processFold configFilePath existingArgs config ([], [])

/-- The configuration-merge step of `runOneBuild` (launcher.js lines
113-119): `args = {...args, ...(await processConfigFile(configFilePath, args))}`.
Returns the final merged build specification and the warnings. -/
def runOneBuildMerge (configFilePath : String) (config args : JObj) :
    Except String (JObj × List Warning) :=
  match processConfigFile configFilePath config args with
  | .error msg => .error msg
  | .ok (c, warnings) => .ok (spreadMerge args c, warnings)

/-- The entries of an object that carry a given key (at most one for a
well-formed JS object); used to track one key through the fold. -/
def filterAt (o : JObj) (k : String) : JObj :=
  o.filter (fun p => p.1 == k)

/-- The warnings naming a given configuration key. -/
def warnsAt (ws : List Warning) (k : String) : List Warning :=
  ws.filter (fun w => w.key == k)

/-! ## Lemmas about object assignment and spread -/

theorem getKey_setKey_self (o : JObj) (k : String) (v : JVal) :
    getKey (setKey o k v) k = some v := by
  induction o with
  | nil => simp [setKey, getKey]
  | cons p rest ih =>
    obtain ⟨k₀, v₀⟩ := p
    by_cases h : k₀ = k
    · subst h; simp [setKey, getKey]
    · simp [setKey, getKey, h, ih]

theorem getKey_setKey_ne (o : JObj) (k k' : String) (v : JVal) (h : k' ≠ k) :
    getKey (setKey o k v) k' = getKey o k' := by
  have h' : k ≠ k' := fun hc => h hc.symm
  induction o with
  | nil => simp [setKey, getKey, h']
  | cons p rest ih =>
    obtain ⟨k₀, v₀⟩ := p
    by_cases h₀ : k₀ = k
    · subst h₀; simp [setKey, getKey, h']
    · simp [setKey, getKey, h₀, ih]

theorem filterAt_setKey_ne (o : JObj) (k k' : String) (v : JVal) (h : k' ≠ k) :
    filterAt (setKey o k' v) k = filterAt o k := by
  induction o with
  | nil => simp [setKey, filterAt, List.filter_cons, h]
  | cons p rest ih =>
    obtain ⟨k₀, v₀⟩ := p
    by_cases h₀ : k₀ = k'
    · subst h₀; simp [setKey, filterAt, List.filter_cons, h]
    · have ih' := ih
      simp only [filterAt] at ih'
      simp [setKey, filterAt, List.filter_cons, h₀, ih']

theorem filterAt_setKey_of_nil (o : JObj) (k : String) (v : JVal)
    (h : filterAt o k = []) :
    filterAt (setKey o k v) k = [(k, v)] := by
  induction o with
  | nil => simp [setKey, filterAt, List.filter_cons]
  | cons p rest ih =>
    obtain ⟨k₀, v₀⟩ := p
    by_cases h₀ : k₀ = k
    · subst h₀; simp [filterAt, List.filter_cons] at h
    · simp only [filterAt, List.filter_cons] at h
      rw [if_neg (by simp [h₀])] at h
      have ih' := ih h
      simp only [filterAt] at ih'
      simp [setKey, filterAt, List.filter_cons, h₀, ih']

theorem getKey_spreadMerge_of_disjoint (b : JObj) (k : String)
    (h : ∀ p ∈ b, p.1 ≠ k) :
    ∀ a : JObj, getKey (spreadMerge a b) k = getKey a k := by
  induction b with
  | nil => intro a; rfl
  | cons p rest ih =>
    intro a
    have step : spreadMerge a (p :: rest) = spreadMerge (setKey a p.1 p.2) rest := rfl
    rw [step, ih (fun q hq => h q (List.mem_cons_of_mem p hq))]
    exact getKey_setKey_ne a p.1 k p.2 (fun hc => h p (List.mem_cons_self p rest) hc.symm)

theorem filterAt_eq_nil_of_disjoint (b : JObj) (k : String)
    (h : ∀ p ∈ b, p.1 ≠ k) : filterAt b k = [] := by
  simp only [filterAt, List.filter_eq_nil_iff]
  intro p hp
  simp [h p hp]

theorem disjoint_of_filterAt_eq_nil (b : JObj) (k : String)
    (h : filterAt b k = []) : ∀ p ∈ b, p.1 ≠ k := by
  simp only [filterAt, List.filter_eq_nil_iff] at h
  intro p hp hc
  exact h p hp (by simp [hc])

theorem getKey_spreadMerge_single (b : JObj) (k : String) (v : JVal)
    (h : filterAt b k = [(k, v)]) :
    ∀ a : JObj, getKey (spreadMerge a b) k = some v := by
  induction b with
  | nil => simp [filterAt] at h
  | cons p rest ih =>
    intro a
    have step : spreadMerge a (p :: rest) = spreadMerge (setKey a p.1 p.2) rest := rfl
    by_cases h₀ : (p.1 == k) = true
    · have hk₀ : p.1 = k := by exact_mod_cast beq_iff_eq.mp h₀
      simp only [filterAt, List.filter_cons, h₀, if_true] at h
      have hp : p = (k, v) := by
        cases h' : (List.filter (fun q => q.1 == k) rest) with
        | nil => simpa [h'] using h
        | cons q t => rw [h'] at h; simp at h
      have hrest : filterAt rest k = [] := by
        cases h' : (List.filter (fun q => q.1 == k) rest) with
        | nil => simpa [filterAt] using h'
        | cons q t => rw [h'] at h; simp at h
      rw [step]
      rw [getKey_spreadMerge_of_disjoint rest k (disjoint_of_filterAt_eq_nil rest k hrest)]
      rw [hp]
      exact getKey_setKey_self a k v
    · simp only [Bool.not_eq_true] at h₀
      simp only [filterAt, List.filter_cons, h₀] at h
      rw [step]
      exact ih h (setKey a p.1 p.2)

/-! ## Lemmas about the configuration fold -/

theorem processEntry_other (cfp : String) (args prev : JObj) (ws : List Warning)
    (key : String) (value : JVal)
    (hnull : value.isNull = false)
    (hig : IGNORED_CONFIG_KEYS.contains key = false)
    (hmg : MERGE_CONFIG_KEYS.contains key = false) :
    processEntry cfp args (prev, ws) (key, value) = .ok (setKey prev key value, ws) := by
  have hig' : key ∉ IGNORED_CONFIG_KEYS := by simpa using hig
  have hmg' : key ∉ MERGE_CONFIG_KEYS := by simpa using hmg
  simp [processEntry, hnull, hig', hmg']

theorem processEntry_ignored (cfp : String) (args prev : JObj) (ws : List Warning)
    (key : String) (value : JVal)
    (hnull : value.isNull = false)
    (hig : IGNORED_CONFIG_KEYS.contains key = true) :
    processEntry cfp args (prev, ws) (key, value) = .ok (prev, ws ++ [.ignored key cfp]) := by
  have hig' : key ∈ IGNORED_CONFIG_KEYS := by simpa using hig
  simp [processEntry, hnull, hig']

theorem processEntry_merge_obj (cfp : String) (args prev : JObj) (ws : List Warning)
    (key : String) (m1 m2 : JObj)
    (hig : IGNORED_CONFIG_KEYS.contains key = false)
    (hmg : MERGE_CONFIG_KEYS.contains key = true)
    (hex : getKey args key = some (.obj m2)) :
    processEntry cfp args (prev, ws) (key, .obj m1) =
      .ok (setKey prev key (.obj (spreadMerge m1 m2)), ws) := by
  have hig' : key ∉ IGNORED_CONFIG_KEYS := by simpa using hig
  have hmg' : key ∈ MERGE_CONFIG_KEYS := by simpa using hmg
  simp [processEntry, JVal.isNull, hig', hmg', hasKey, hex, spreadFieldsOf]

theorem processEntry_merge_arr (cfp : String) (args prev : JObj) (ws : List Warning)
    (key : String) (xs ys : List JVal)
    (hig : IGNORED_CONFIG_KEYS.contains key = false)
    (hmg : MERGE_CONFIG_KEYS.contains key = true)
    (hex : getKey args key = some (.arr ys)) :
    processEntry cfp args (prev, ws) (key, .arr xs) =
      .ok (setKey prev key (.arr (xs ++ ys)), ws) := by
  have hig' : key ∉ IGNORED_CONFIG_KEYS := by simpa using hig
  have hmg' : key ∈ MERGE_CONFIG_KEYS := by simpa using hmg
  simp [processEntry, JVal.isNull, hig', hmg', hasKey, hex, arrSpreadElems]

theorem processEntry_shape (cfp : String) (args prev prev' : JObj)
    (ws ws' : List Warning) (key : String) (value : JVal)
    (hok : processEntry cfp args (prev, ws) (key, value) = .ok (prev', ws')) :
    (prev' = prev ∧ (ws' = ws ∨ ∃ w, ws' = ws ++ [w] ∧ w.key = key)) ∨
    (∃ u, prev' = setKey prev key u ∧ ws' = ws) := by
  unfold processEntry at hok
  simp only at hok
  split at hok
  · simp only [Except.ok.injEq, Prod.mk.injEq] at hok
    exact Or.inl ⟨hok.1.symm, Or.inl hok.2.symm⟩
  · split at hok
    · simp only [Except.ok.injEq, Prod.mk.injEq] at hok
      exact Or.inl ⟨hok.1.symm, Or.inr ⟨_, hok.2.symm, rfl⟩⟩
    · split at hok
      · split at hok
        · split at hok
          · exact Except.noConfusion hok
          · simp only [Except.ok.injEq, Prod.mk.injEq] at hok
            exact Or.inr ⟨_, hok.1.symm, hok.2.symm⟩
        · simp only [Except.ok.injEq, Prod.mk.injEq] at hok
          exact Or.inr ⟨_, hok.1.symm, hok.2.symm⟩
        · simp only [Except.ok.injEq, Prod.mk.injEq] at hok
          exact Or.inl ⟨hok.1.symm, Or.inr ⟨_, hok.2.symm, rfl⟩⟩
      · simp only [Except.ok.injEq, Prod.mk.injEq] at hok
        exact Or.inr ⟨_, hok.1.symm, hok.2.symm⟩

theorem processFold_append (cfp : String) (args : JObj) (xs ys : List (String × JVal)) :
    ∀ st : JObj × List Warning, processFold cfp args (xs ++ ys) st =
      match processFold cfp args xs st with
      | .error e => .error e
      | .ok st' => processFold cfp args ys st' := by
  induction xs with
  | nil => intro st; simp [processFold]
  | cons e rest ih =>
    intro st
    simp only [List.cons_append, processFold]
    cases hpe : processEntry cfp args st e with
    | error msg => simp
    | ok st1 => simp [ih st1]

theorem processFold_preserve (cfp : String) (args : JObj) (k : String)
    (entries : List (String × JVal)) (h : ∀ e ∈ entries, e.1 ≠ k) :
    ∀ st st' : JObj × List Warning, processFold cfp args entries st = .ok st' →
      getKey st'.1 k = getKey st.1 k ∧ filterAt st'.1 k = filterAt st.1 k ∧
        warnsAt st'.2 k = warnsAt st.2 k := by
  induction entries with
  | nil =>
    intro st st' hok
    cases hok
    exact ⟨rfl, rfl, rfl⟩
  | cons e rest ih =>
    intro st st' hok
    simp only [processFold] at hok
    cases hpe : processEntry cfp args st e with
    | error msg => rw [hpe] at hok; exact Except.noConfusion hok
    | ok st1 =>
      rw [hpe] at hok
      obtain ⟨ek, ev⟩ := e
      have hkey : ek ≠ k := h (ek, ev) (List.mem_cons_self _ rest)
      obtain ⟨st0a, st0b⟩ := st
      obtain ⟨st1a, st1b⟩ := st1
      have hshape := processEntry_shape cfp args st0a st1a st0b st1b ek ev hpe
      have hrest := ih (fun q hq => h q (List.mem_cons_of_mem _ hq)) (st1a, st1b) st' hok
      rcases hshape with ⟨hp, hw⟩ | ⟨u, hp, hw⟩
      · subst hp
        rcases hw with hw | ⟨w, hw, hwk⟩
        · subst hw; exact hrest
        · subst hw
          refine ⟨hrest.1, hrest.2.1, ?_⟩
          rw [hrest.2.2]
          simp [warnsAt, List.filter_append, hwk, hkey]
      · subst hp; subst hw
        refine ⟨?_, ?_, hrest.2.2⟩
        · rw [hrest.1]
          exact getKey_setKey_ne st0a ek k u (Ne.symm hkey)
        · rw [hrest.2.1]
          exact filterAt_setKey_ne st0a k ek u hkey

/-- Master lemma: follow a single configuration key `k` (occurring
exactly once, as `Object.entries` of a JS object guarantees) through
`processConfigFile` and the final `{...args, ...config}` spread of
`runOneBuild`. -/
theorem runOneBuildMerge_track_key (cfp : String) (args : JObj)
    (pre post : List (String × JVal)) (k : String) (v : JVal)
    (hpre : ∀ e ∈ pre, e.1 ≠ k) (hpost : ∀ e ∈ post, e.1 ≠ k)
    (final : JObj) (ws : List Warning)
    (hok : runOneBuildMerge cfp (pre ++ (k, v) :: post) args = .ok (final, ws)) :
    ∃ prev w1 c2 w2,
      processEntry cfp args (prev, w1) (k, v) = .ok (c2, w2) ∧
      filterAt prev k = [] ∧ warnsAt w1 k = [] ∧
      (∀ u, filterAt c2 k = [(k, u)] → getKey final k = some u) ∧
      (filterAt c2 k = [] → getKey final k = getKey args k) ∧
      warnsAt ws k = warnsAt w2 k := by
  simp only [runOneBuildMerge, processConfigFile] at hok
  rw [processFold_append] at hok
  cases h1 : processFold cfp args pre ([], []) with
  | error msg => rw [h1] at hok; exact Except.noConfusion hok
  | ok st1 =>
    rw [h1] at hok
    obtain ⟨st1a, st1b⟩ := st1
    simp only [processFold] at hok
    cases hpe : processEntry cfp args (st1a, st1b) (k, v) with
    | error msg => rw [hpe] at hok; exact Except.noConfusion hok
    | ok st2 =>
      rw [hpe] at hok
      obtain ⟨c2, w2⟩ := st2
      dsimp only at hok
      cases h2 : processFold cfp args post (c2, w2) with
      | error msg => rw [h2] at hok; exact Except.noConfusion hok
      | ok st3 =>
        rw [h2] at hok
        obtain ⟨st3a, st3b⟩ := st3
        simp only [Except.ok.injEq, Prod.mk.injEq] at hok
        obtain ⟨hfinal, hws⟩ := hok
        have hp1 := processFold_preserve cfp args k pre hpre ([], []) (st1a, st1b) h1
        have hp2 := processFold_preserve cfp args k post hpost (c2, w2) (st3a, st3b) h2
        refine ⟨st1a, st1b, c2, w2, hpe, hp1.2.1, hp1.2.2, ?_, ?_, ?_⟩
        · intro u hu
          rw [← hfinal]
          exact getKey_spreadMerge_single st3a k u (hp2.2.1.trans hu) args
        · intro hnil
          rw [← hfinal]
          exact getKey_spreadMerge_of_disjoint st3a k
            (disjoint_of_filterAt_eq_nil st3a k (hp2.2.1.trans hnil)) args
        · rw [← hws]; exact hp2.2.2

/-- Claim C3 counterexample: for a key set by both the inline arguments
and the configuration module ("format", neither ignored nor mergeable),
the merged specification holds the configuration-module value, not the
inline value — refuting the claim that the inline/parameter-file value
is retained. -/
theorem c3_counterexample :
    runOneBuildMerge "config.mjs" [("format", JVal.str "esm")] [("format", JVal.str "cjs")]
      = .ok ([("format", JVal.str "esm")], []) ∧
    getKey [("format", JVal.str "esm")] "format" ≠ some (JVal.str "cjs") := by
  constructor
  · rfl
  · intro h
    simp [getKey] at h

/-- Claim C3 (amended): for every configuration-module key that is
neither in the ignored-key set nor in the mergeable-key set and has a
non-null value, the final merged build specification holds the
configuration-module value for that key — this value overrides
whatever the inline/parameter-file fragment had set. -/
theorem c3_config_overrides (cfp : String) (args : JObj)
    (pre post : List (String × JVal)) (k : String) (v : JVal)
    (hpre : ∀ e ∈ pre, e.1 ≠ k) (hpost : ∀ e ∈ post, e.1 ≠ k)
    (hnull : v.isNull = false)
    (hig : IGNORED_CONFIG_KEYS.contains k = false)
    (hmg : MERGE_CONFIG_KEYS.contains k = false)
    (final : JObj) (ws : List Warning)
    (hok : runOneBuildMerge cfp (pre ++ (k, v) :: post) args = .ok (final, ws)) :
    getKey final k = some v := by
  obtain ⟨prev, w1, c2, w2, hpe, hfp, hwp, hsingle, hnil, hwarns⟩ :=
    runOneBuildMerge_track_key cfp args pre post k v hpre hpost final ws hok
  rw [processEntry_other cfp args prev w1 k v hnull hig hmg] at hpe
  simp only [Except.ok.injEq, Prod.mk.injEq] at hpe
  obtain ⟨hc2, hw2⟩ := hpe
  refine hsingle v ?_
  rw [← hc2]
  exact filterAt_setKey_of_nil prev k v hfp

/-- Claim C3 witness: instantiating the amended claim at the
counterexample's input. -/
theorem c3_config_overrides_witness :
    getKey [("format", JVal.str "esm")] "format" = some (JVal.str "esm") :=
  c3_config_overrides "config.mjs" [("format", JVal.str "cjs")] [] [] "format"
    (JVal.str "esm") (by simp) (by simp) rfl rfl rfl
    [("format", JVal.str "esm")] [] rfl

/-- Claim C4: a configuration-module fragment supplying an ignored key
(bundle, entryPoints, external, metafile, outdir, outfile,
preserveSymlinks, sourcemap, splitting) with a non-null value never
changes that key's value in the merged specification, and produces
exactly one warning naming that key. -/
theorem c4_ignored_key (cfp : String) (args : JObj)
    (pre post : List (String × JVal)) (k : String) (v : JVal)
    (hpre : ∀ e ∈ pre, e.1 ≠ k) (hpost : ∀ e ∈ post, e.1 ≠ k)
    (hnull : v.isNull = false)
    (hig : IGNORED_CONFIG_KEYS.contains k = true)
    (final : JObj) (ws : List Warning)
    (hok : runOneBuildMerge cfp (pre ++ (k, v) :: post) args = .ok (final, ws)) :
    getKey final k = getKey args k ∧ warnsAt ws k = [.ignored k cfp] := by
  obtain ⟨prev, w1, c2, w2, hpe, hfp, hwp, hsingle, hnil, hwarns⟩ :=
    runOneBuildMerge_track_key cfp args pre post k v hpre hpost final ws hok
  rw [processEntry_ignored cfp args prev w1 k v hnull hig] at hpe
  simp only [Except.ok.injEq, Prod.mk.injEq] at hpe
  obtain ⟨hc2, hw2⟩ := hpe
  constructor
  · exact hnil (hc2 ▸ hfp)
  · rw [hwarns, ← hw2]
    have hwp' := hwp
    simp only [warnsAt] at hwp'
    simp only [warnsAt, List.filter_append]
    rw [hwp']
    simp [List.filter_cons, Warning.key]

/-- Claim C5: for a mergeable key ("define") present in both the
configuration module and the existing arguments: when both hold keyed
mappings, the merged specification holds their shallow merge with
existing entries winning on key collision; when the configuration
value is a sequence, the merged value is the configuration entries
concatenated before the existing entries. -/
theorem c5_define_merge :
    (∀ (cfp : String) (args : JObj) (pre post : List (String × JVal)) (k : String)
        (m1 m2 : JObj) (final : JObj) (ws : List Warning),
      (∀ e ∈ pre, e.1 ≠ k) → (∀ e ∈ post, e.1 ≠ k) →
      IGNORED_CONFIG_KEYS.contains k = false →
      MERGE_CONFIG_KEYS.contains k = true →
      getKey args k = some (.obj m2) →
      runOneBuildMerge cfp (pre ++ (k, .obj m1) :: post) args = .ok (final, ws) →
      getKey final k = some (.obj (spreadMerge m1 m2))) ∧
    (∀ (cfp : String) (args : JObj) (pre post : List (String × JVal)) (k : String)
        (xs ys : List JVal) (final : JObj) (ws : List Warning),
      (∀ e ∈ pre, e.1 ≠ k) → (∀ e ∈ post, e.1 ≠ k) →
      IGNORED_CONFIG_KEYS.contains k = false →
      MERGE_CONFIG_KEYS.contains k = true →
      getKey args k = some (.arr ys) →
      runOneBuildMerge cfp (pre ++ (k, .arr xs) :: post) args = .ok (final, ws) →
      getKey final k = some (.arr (xs ++ ys))) := by
  constructor
  · intro cfp args pre post k m1 m2 final ws hpre hpost hig hmg hex hok
    obtain ⟨prev, w1, c2, w2, hpe, hfp, hwp, hsingle, hnil, hwarns⟩ :=
      runOneBuildMerge_track_key cfp args pre post k (.obj m1) hpre hpost final ws hok
    rw [processEntry_merge_obj cfp args prev w1 k m1 m2 hig hmg hex] at hpe
    simp only [Except.ok.injEq, Prod.mk.injEq] at hpe
    obtain ⟨hc2, hw2⟩ := hpe
    refine hsingle (.obj (spreadMerge m1 m2)) ?_
    rw [← hc2]
    exact filterAt_setKey_of_nil prev k _ hfp
  · intro cfp args pre post k xs ys final ws hpre hpost hig hmg hex hok
    obtain ⟨prev, w1, c2, w2, hpe, hfp, hwp, hsingle, hnil, hwarns⟩ :=
      runOneBuildMerge_track_key cfp args pre post k (.arr xs) hpre hpost final ws hok
    rw [processEntry_merge_arr cfp args prev w1 k xs ys hig hmg hex] at hpe
    simp only [Except.ok.injEq, Prod.mk.injEq] at hpe
    obtain ⟨hc2, hw2⟩ := hpe
    refine hsingle (.arr (xs ++ ys)) ?_
    rw [← hc2]
    exact filterAt_setKey_of_nil prev k _ hfp

/-- Claim C4 witness: the configuration module sets the ignored key
`bundle`; the merged specification keeps the inline value and exactly
the one ignored-key warning is emitted. -/
theorem c4_ignored_key_witness :
    getKey [("bundle", JVal.bool false)] "bundle" = getKey [("bundle", JVal.bool false)] "bundle" ∧
    warnsAt [Warning.ignored "bundle" "config.mjs"] "bundle"
      = [Warning.ignored "bundle" "config.mjs"] :=
  c4_ignored_key "config.mjs" [("bundle", JVal.bool false)] [] [] "bundle" (JVal.bool true)
    (by simp) (by simp) rfl rfl [("bundle", JVal.bool false)]
    [Warning.ignored "bundle" "config.mjs"] rfl

/-- Claim C5 witness: merging the configuration mapping `{A:1,B:2}`
with the existing mapping `{B:3,C:4}` yields `{A:1,B:3,C:4}` (existing
entries win on collision), and merging the configuration sequence `[1]`
with the existing sequence `[2]` yields `[1,2]` (configuration entries
first). -/
theorem c5_define_merge_witness :
    getKey [("define", JVal.obj [("A", JVal.num 1), ("B", JVal.num 3), ("C", JVal.num 4)])] "define"
      = some (JVal.obj (spreadMerge [("A", JVal.num 1), ("B", JVal.num 2)]
          [("B", JVal.num 3), ("C", JVal.num 4)])) ∧
    spreadMerge [("A", JVal.num 1), ("B", JVal.num 2)] [("B", JVal.num 3), ("C", JVal.num 4)]
      = [("A", JVal.num 1), ("B", JVal.num 3), ("C", JVal.num 4)] ∧
    getKey [("define", JVal.arr [JVal.num 1, JVal.num 2])] "define"
      = some (JVal.arr ([JVal.num 1] ++ [JVal.num 2])) :=
  ⟨c5_define_merge.1 "config.mjs" [("define", JVal.obj [("B", JVal.num 3), ("C", JVal.num 4)])]
      [] [] "define" [("A", JVal.num 1), ("B", JVal.num 2)] [("B", JVal.num 3), ("C", JVal.num 4)]
      [("define", JVal.obj [("A", JVal.num 1), ("B", JVal.num 3), ("C", JVal.num 4)])] []
      (by simp) (by simp) rfl rfl rfl rfl,
   rfl,
   c5_define_merge.2 "config.mjs" [("define", JVal.arr [JVal.num 2])] [] [] "define"
      [JVal.num 1] [JVal.num 2] [("define", JVal.arr [JVal.num 1, JVal.num 2])] []
      (by simp) (by simp) rfl rfl rfl rfl⟩

/-! ## Lemmas about the string-search model -/

theorem listIndexOf_isSome_iff (hay need : List Char) :
    (listIndexOf hay need).isSome = true ↔ need <:+: hay := by
  induction hay with
  | nil =>
    by_cases h : need = [] <;> simp [listIndexOf, h]
  | cons h t ih =>
    by_cases hp : need.isPrefixOf (h :: t) = true
    · have hp' : need <+: (h :: t) := List.isPrefixOf_iff_prefix.mp hp
      simp [listIndexOf, hp, List.infix_cons_iff, hp']
    · have hp' : ¬need <+: (h :: t) := fun hc => hp (List.isPrefixOf_iff_prefix.mpr hc)
      simp [listIndexOf, hp, ih, List.infix_cons_iff, hp']

theorem strIncludes_iff_occurs (s sub : String) :
    strIncludes s sub = true ↔ sub.data <:+: s.data := by
  simp [strIncludes, listIndexOf_isSome_iff]

theorem data_append (s t : String) : (s ++ t).data = s.data ++ t.data := by
  cases s; cases t; rfl

/-! ## Claim theorems for the sandbox resolver plugin -/

/-- Claim C1: for every error-free resolution result whose path is a
relative/absolute filesystem path (starts with `.`, `/` or `\`), does
not start with the execroot, and contains the bindir, the plugin
returns the result with its path corrected to the execroot joined with
the suffix of the resolved path starting at the binary-output-directory
component (its first occurrence). -/
theorem c1_correction (env : SandboxEnv) (r : ResolveResult)
    (herr : r.errors = [])
    (hpath : (jsStartsWith r.path "." || jsStartsWith r.path "/" ||
      jsStartsWith r.path "\\") = true)
    (hout : jsStartsWith r.path env.execroot = false)
    (hbin : strIncludes r.path env.bindir = true) :
    checkResultPath env r =
      .ok { r with path := pathJoin env.execroot (jsSubstring r.path (jsIndexOf r.path env.bindir)) } := by
  have hcond : (!jsStartsWith r.path "." && !jsStartsWith r.path "/" &&
      !jsStartsWith r.path "\\") = false := by
    rw [← Bool.not_or, ← Bool.not_or, hpath]
    rfl
  simp [checkResultPath, herr, hcond, hout, hbin]

/-- Claim C1 witness: the spec's concrete example, evaluated. -/
theorem c1_correction_witness :
    checkResultPath ⟨"bazel-out/k8-fastbuild/bin", "/exec"⟩
        ⟨"/outside/bazel-out/k8-fastbuild/bin/x", []⟩
      = .ok ⟨"/exec/bazel-out/k8-fastbuild/bin/x", []⟩ := by
  have h := c1_correction ⟨"bazel-out/k8-fastbuild/bin", "/exec"⟩
      ⟨"/outside/bazel-out/k8-fastbuild/bin/x", []⟩ rfl rfl rfl rfl
  rw [h]
  rfl

/-- Claim C2 counterexample: at a resolved path outside both roots, the
build does fail, but the thrown error's message does not contain the
configured execution root (`/exec`) — it names `BAZEL_BINDIR` instead —
refuting the claim that the message names the execution root. -/
theorem c2_counterexample :
    checkResultPath ⟨"bazel-out/k8-fastbuild/bin", "/exec"⟩ ⟨"/elsewhere/x", []⟩
      = .error (.escape (escapeMessage "bazel-out/k8-fastbuild/bin" "/elsewhere/x")) ∧
    strIncludes (escapeMessage "bazel-out/k8-fastbuild/bin" "/elsewhere/x") "/exec" = false := by
  exact ⟨rfl, rfl⟩

/-- Claim C2 (amended): for every error-free path-like resolution
result outside the execroot and not containing the bindir, the plugin
throws an `Error` (failing the build) whose message names the
offending path and the configured binary output directory
(`BAZEL_BINDIR`) — not the execution root. -/
theorem c2_escape_error (env : SandboxEnv) (r : ResolveResult)
    (herr : r.errors = [])
    (hpath : (jsStartsWith r.path "." || jsStartsWith r.path "/" ||
      jsStartsWith r.path "\\") = true)
    (hout : jsStartsWith r.path env.execroot = false)
    (hbin : strIncludes r.path env.bindir = false) :
    checkResultPath env r = .error (.escape (escapeMessage env.bindir r.path)) ∧
    strIncludes (escapeMessage env.bindir r.path) r.path = true ∧
    strIncludes (escapeMessage env.bindir r.path) env.bindir = true := by
  have hcond : (!jsStartsWith r.path "." && !jsStartsWith r.path "/" &&
      !jsStartsWith r.path "\\") = false := by
    rw [← Bool.not_or, ← Bool.not_or, hpath]
    rfl
  have hdata : (escapeMessage env.bindir r.path).data =
      ("Error: esbuild resolved a path outside of BAZEL_BINDIR (").data ++
        (env.bindir.data ++ (("): ").data ++ r.path.data)) := by
    simp [escapeMessage, data_append]
  refine ⟨?_, ?_, ?_⟩
  · simp [checkResultPath, herr, hcond, hout, hbin]
  · rw [strIncludes_iff_occurs, hdata]
    have hshape : ("Error: esbuild resolved a path outside of BAZEL_BINDIR (").data ++
        (env.bindir.data ++ (("): ").data ++ r.path.data)) =
        (("Error: esbuild resolved a path outside of BAZEL_BINDIR (").data ++
          (env.bindir.data ++ ("): ").data)) ++ r.path.data := by
      simp
    rw [hshape]
    exact (List.suffix_append _ _).isInfix
  · rw [strIncludes_iff_occurs, hdata]
    refine ⟨("Error: esbuild resolved a path outside of BAZEL_BINDIR (").data,
      ("): ").data ++ r.path.data, ?_⟩
    simp

/-- Claim C2 witness: the amended claim instantiated at the
counterexample's concrete input. -/
theorem c2_escape_error_witness :
    checkResultPath ⟨"bazel-out/k8-fastbuild/bin", "/exec"⟩ ⟨"/elsewhere/x", []⟩
      = .error (.escape (escapeMessage "bazel-out/k8-fastbuild/bin" "/elsewhere/x")) ∧
    strIncludes (escapeMessage "bazel-out/k8-fastbuild/bin" "/elsewhere/x") "/elsewhere/x" = true ∧
    strIncludes (escapeMessage "bazel-out/k8-fastbuild/bin" "/elsewhere/x")
      "bazel-out/k8-fastbuild/bin" = true :=
  c2_escape_error ⟨"bazel-out/k8-fastbuild/bin", "/exec"⟩ ⟨"/elsewhere/x", []⟩ rfl rfl rfl rfl

/-- Claim C9: escape detection and repair are decided by string
matching, not path-component containment: an error-free path-like
result is returned unchanged exactly when its string starts with the
execroot string; otherwise it errors exactly when the bindir string
does not occur in it, and otherwise it is spliced at the first
occurrence of the bindir string. -/
theorem c9_string_matching (env : SandboxEnv) (r : ResolveResult)
    (herr : r.errors = [])
    (hpath : (jsStartsWith r.path "." || jsStartsWith r.path "/" ||
      jsStartsWith r.path "\\") = true) :
    (jsStartsWith r.path env.execroot = true → checkResultPath env r = .ok r) ∧
    (jsStartsWith r.path env.execroot = false → strIncludes r.path env.bindir = false →
      checkResultPath env r = .error (.escape (escapeMessage env.bindir r.path))) ∧
    (jsStartsWith r.path env.execroot = false → strIncludes r.path env.bindir = true →
      checkResultPath env r =
        .ok { r with path := pathJoin env.execroot (jsSubstring r.path (jsIndexOf r.path env.bindir)) }) := by
  have hcond : (!jsStartsWith r.path "." && !jsStartsWith r.path "/" &&
      !jsStartsWith r.path "\\") = false := by
    rw [← Bool.not_or, ← Bool.not_or, hpath]
    rfl
  refine ⟨?_, ?_, ?_⟩
  · intro hin
    simp [checkResultPath, herr, hcond, hin]
  · intro hout hbin
    simp [checkResultPath, herr, hcond, hout, hbin]
  · intro hout hbin
    simp [checkResultPath, herr, hcond, hout, hbin]

/-- Claim C9 witness: `/exec-other/x` starts with the execroot string
`/exec` and is therefore left uncorrected, and a path containing the
bindir string twice is spliced at the first occurrence. -/
theorem c9_string_matching_witness :
    checkResultPath ⟨"bb", "/exec"⟩ ⟨"/exec-other/x", []⟩ = .ok ⟨"/exec-other/x", []⟩ ∧
    checkResultPath ⟨"bb", "/exec"⟩ ⟨"/o/bb/x/bb/y", []⟩ = .ok ⟨"/exec/bb/x/bb/y", []⟩ := by
  constructor
  · exact (c9_string_matching ⟨"bb", "/exec"⟩ ⟨"/exec-other/x", []⟩ rfl rfl).1 rfl
  · have h := (c9_string_matching ⟨"bb", "/exec"⟩ ⟨"/o/bb/x/bb/y", []⟩ rfl rfl).2.2 rfl rfl
    rw [h]
    rfl

/-- Claim C6: for a relative specifier (starting with `.`) whose joined
path exists and is not a symbolic link, the fast path produces
`{path: resolveDir/p}`, and the plugin's result is the post-processing
of that path alone — independent of the bundler's resolver, which is
therefore never invoked. -/
theorem c6_fast_path (env : SandboxEnv) (fs : FS) (opts : ResolveOptions) (p : String)
    (hrel : jsStartsWith p "." = true)
    (hstat : fs.lstat (pathJoin opts.resolveDir p) = .ok ⟨false⟩) :
    fastPathResolve fs opts.resolveDir p = .ok (some ⟨pathJoin opts.resolveDir p, []⟩) ∧
    ∀ resolver, resolveInExecroot env fs resolver p opts =
      checkResultPath env ⟨pathJoin opts.resolveDir p, []⟩ := by
  have hfast : fastPathResolve fs opts.resolveDir p
      = .ok (some ⟨pathJoin opts.resolveDir p, []⟩) := by
    simp [fastPathResolve, hrel, hstat]
  exact ⟨hfast, fun resolver => by simp [resolveInExecroot, hfast]⟩

/-- Claim C6 witness: a concrete filesystem where `/exec/app/b.js`
exists and is a regular file; the result is the same for two resolvers
that disagree everywhere. -/
theorem c6_fast_path_witness :
    fastPathResolve ⟨fun _ => .ok ⟨false⟩, fun _ => .err "ENOENT"⟩ "/exec/app" "./b.js"
      = .ok (some ⟨pathJoin "/exec/app" "./b.js", []⟩) ∧
    resolveInExecroot ⟨"bazel-out/k8-fastbuild/bin", "/exec"⟩
        ⟨fun _ => .ok ⟨false⟩, fun _ => .err "ENOENT"⟩
        (fun _ _ => ⟨"/somewhere/else", []⟩) "./b.js" ⟨"/exec/app", none⟩
      = checkResultPath ⟨"bazel-out/k8-fastbuild/bin", "/exec"⟩ ⟨pathJoin "/exec/app" "./b.js", []⟩ ∧
    resolveInExecroot ⟨"bazel-out/k8-fastbuild/bin", "/exec"⟩
        ⟨fun _ => .ok ⟨false⟩, fun _ => .err "ENOENT"⟩
        (fun _ _ => ⟨"external-pkg", []⟩) "./b.js" ⟨"/exec/app", none⟩
      = checkResultPath ⟨"bazel-out/k8-fastbuild/bin", "/exec"⟩ ⟨pathJoin "/exec/app" "./b.js", []⟩ :=
  ⟨(c6_fast_path ⟨"bazel-out/k8-fastbuild/bin", "/exec"⟩
      ⟨fun _ => .ok ⟨false⟩, fun _ => .err "ENOENT"⟩ ⟨"/exec/app", none⟩ "./b.js" rfl rfl).1,
   (c6_fast_path ⟨"bazel-out/k8-fastbuild/bin", "/exec"⟩
      ⟨fun _ => .ok ⟨false⟩, fun _ => .err "ENOENT"⟩ ⟨"/exec/app", none⟩ "./b.js" rfl rfl).2
      (fun _ _ => ⟨"/somewhere/else", []⟩),
   (c6_fast_path ⟨"bazel-out/k8-fastbuild/bin", "/exec"⟩
      ⟨fun _ => .ok ⟨false⟩, fun _ => .err "ENOENT"⟩ ⟨"/exec/app", none⟩ "./b.js" rfl rfl).2
      (fun _ _ => ⟨"external-pkg", []⟩)⟩

/-- Claim C7: a resolution request whose forwarding data already
carries the `executedSandboxPlugin` marker is answered `none`
immediately (no override, i.e. the request continues unmodified),
regardless of its specifier; a request without the marker is processed
by `resolveInExecroot` with the marker set in its options first. -/
theorem c7_recursion_guard :
    (∀ (env : SandboxEnv) (fs : FS) (resolver : String → ResolveOptions → ResolveResult)
        (p : String) (opts : ResolveOptions) (pd : PluginData),
      opts.pluginData = some pd → pd.executedSandboxPlugin = true →
      bazelSandboxOnResolve env fs resolver p opts = none) ∧
    (∀ (env : SandboxEnv) (fs : FS) (resolver : String → ResolveOptions → ResolveResult)
        (p : String) (opts : ResolveOptions),
      (∀ pd, opts.pluginData = some pd → pd.executedSandboxPlugin = false) →
      bazelSandboxOnResolve env fs resolver p opts =
        some (resolveInExecroot env fs resolver p (markPluginData opts))) := by
  constructor
  · intro env fs resolver p opts pd hpd hexec
    simp [bazelSandboxOnResolve, hpd, hexec]
  · intro env fs resolver p opts hpd
    cases h : opts.pluginData with
    | none => simp [bazelSandboxOnResolve, h]
    | some pd => simp [bazelSandboxOnResolve, h, hpd pd h]

/-- Claim C7 witness: a marked request (with an arbitrary, even
non-path, specifier) is returned unmodified; an unmarked request is
processed with the marker set. -/
theorem c7_recursion_guard_witness :
    bazelSandboxOnResolve ⟨"bazel-out/k8-fastbuild/bin", "/exec"⟩
        ⟨fun _ => .err "ENOENT", fun _ => .err "ENOENT"⟩
        (fun _ _ => ⟨"whatever", []⟩) "some-odd-specifier!" ⟨"/exec/app", some ⟨true⟩⟩
      = none ∧
    bazelSandboxOnResolve ⟨"bazel-out/k8-fastbuild/bin", "/exec"⟩
        ⟨fun _ => .err "ENOENT", fun _ => .err "ENOENT"⟩
        (fun _ _ => ⟨"whatever", []⟩) "pkg" ⟨"/exec/app", none⟩
      = some (resolveInExecroot ⟨"bazel-out/k8-fastbuild/bin", "/exec"⟩
          ⟨fun _ => .err "ENOENT", fun _ => .err "ENOENT"⟩
          (fun _ _ => ⟨"whatever", []⟩) "pkg" (markPluginData ⟨"/exec/app", none⟩)) :=
  ⟨c7_recursion_guard.1 ⟨"bazel-out/k8-fastbuild/bin", "/exec"⟩
      ⟨fun _ => .err "ENOENT", fun _ => .err "ENOENT"⟩ (fun _ _ => ⟨"whatever", []⟩)
      "some-odd-specifier!" ⟨"/exec/app", some ⟨true⟩⟩ ⟨true⟩ rfl rfl,
   c7_recursion_guard.2 ⟨"bazel-out/k8-fastbuild/bin", "/exec"⟩
      ⟨fun _ => .err "ENOENT", fun _ => .err "ENOENT"⟩ (fun _ _ => ⟨"whatever", []⟩)
      "pkg" ⟨"/exec/app", none⟩ (fun pd hpd => by cases hpd)⟩

/-- Claim C8: while probing a relative specifier, a not-found
(`ENOENT`) error from `lstat` or `readlink` makes the plugin fall
through to the slow path (delegating to the bundler's resolver); any
other filesystem error is fatal and propagated. -/
theorem c8_probe_errors (env : SandboxEnv) (fs : FS) (opts : ResolveOptions) (p : String)
    (hrel : jsStartsWith p "." = true) :
    (fs.lstat (pathJoin opts.resolveDir p) = .err "ENOENT" →
      ∀ resolver, resolveInExecroot env fs resolver p opts
        = checkResultPath env (resolver p opts)) ∧
    (∀ code, code ≠ "ENOENT" → fs.lstat (pathJoin opts.resolveDir p) = .err code →
      ∀ resolver, resolveInExecroot env fs resolver p opts = .error (.fsError code)) ∧
    (fs.lstat (pathJoin opts.resolveDir p) = .ok ⟨true⟩ →
      fs.readlink (pathJoin opts.resolveDir p) = .err "ENOENT" →
      ∀ resolver, resolveInExecroot env fs resolver p opts
        = checkResultPath env (resolver p opts)) ∧
    (∀ code, code ≠ "ENOENT" → fs.lstat (pathJoin opts.resolveDir p) = .ok ⟨true⟩ →
      fs.readlink (pathJoin opts.resolveDir p) = .err code →
      ∀ resolver, resolveInExecroot env fs resolver p opts = .error (.fsError code)) := by
  refine ⟨?_, ?_, ?_, ?_⟩
  · intro hstat resolver
    simp [resolveInExecroot, fastPathResolve, hrel, hstat]
  · intro code hne hstat resolver
    simp [resolveInExecroot, fastPathResolve, hrel, hstat, hne]
  · intro hstat hlink resolver
    simp [resolveInExecroot, fastPathResolve, hrel, hstat, hlink]
  · intro code hne hstat hlink resolver
    simp [resolveInExecroot, fastPathResolve, hrel, hstat, hlink, hne]

/-- Claim C8 witness: a missing file falls through to the resolver; an
`EACCES` failure is propagated as a fatal error. -/
theorem c8_probe_errors_witness :
    resolveInExecroot ⟨"bazel-out/k8-fastbuild/bin", "/exec"⟩
        ⟨fun _ => .err "ENOENT", fun _ => .err "ENOENT"⟩
        (fun _ _ => ⟨"/exec/a.js", []⟩) "./a" ⟨"/exec", none⟩
      = checkResultPath ⟨"bazel-out/k8-fastbuild/bin", "/exec"⟩
          ((fun _ _ => ResolveResult.mk "/exec/a.js" []) "./a" (ResolveOptions.mk "/exec" none)) ∧
    ("EACCES" : String) ≠ "ENOENT" ∧
    resolveInExecroot ⟨"bazel-out/k8-fastbuild/bin", "/exec"⟩
        ⟨fun _ => .err "EACCES", fun _ => .err "ENOENT"⟩
        (fun _ _ => ⟨"/exec/a.js", []⟩) "./a" ⟨"/exec", none⟩
      = .error (.fsError "EACCES") :=
  ⟨(c8_probe_errors ⟨"bazel-out/k8-fastbuild/bin", "/exec"⟩
      ⟨fun _ => .err "ENOENT", fun _ => .err "ENOENT"⟩ ⟨"/exec", none⟩ "./a" rfl).1 rfl
      (fun _ _ => ⟨"/exec/a.js", []⟩),
   by decide,
   (c8_probe_errors ⟨"bazel-out/k8-fastbuild/bin", "/exec"⟩
      ⟨fun _ => .err "EACCES", fun _ => .err "ENOENT"⟩ ⟨"/exec", none⟩ "./a" rfl).2.1
      "EACCES" (by decide) rfl (fun _ _ => ⟨"/exec/a.js", []⟩)⟩

/-- Claim C10: when a relative specifier's joined path is a symbolic
link, the fast path uses the raw stored link target (no join to the
link's directory); hence whenever that stored target starts with `.`
(a relative target, in the spec's sense) but does not start with the
execroot string and does not contain the bindir string, resolution
throws the sandbox-escape error — regardless of where the target file
actually lies. -/
theorem c10_symlink_raw_target (env : SandboxEnv) (fs : FS) (opts : ResolveOptions)
    (p t : String)
    (hrel : jsStartsWith p "." = true)
    (hstat : fs.lstat (pathJoin opts.resolveDir p) = .ok ⟨true⟩)
    (hlink : fs.readlink (pathJoin opts.resolveDir p) = .ok t)
    (htrel : jsStartsWith t "." = true)
    (hout : jsStartsWith t env.execroot = false)
    (hbin : strIncludes t env.bindir = false) :
    fastPathResolve fs opts.resolveDir p = .ok (some ⟨t, []⟩) ∧
    ∀ resolver, resolveInExecroot env fs resolver p opts
      = .error (.escape (escapeMessage env.bindir t)) := by
  have hfast : fastPathResolve fs opts.resolveDir p = .ok (some ⟨t, []⟩) := by
    simp [fastPathResolve, hrel, hstat, hlink]
  refine ⟨hfast, fun resolver => ?_⟩
  simp [resolveInExecroot, hfast, checkResultPath, htrel, hout, hbin]

/-- Claim C10 witness: a symlink `/exec/app/link.js -> ./real.js` whose
target file `/exec/app/real.js` lies inside the sandbox still makes
resolution throw the sandbox-escape error, because the raw target
`./real.js` neither starts with the execroot nor contains the bindir. -/
theorem c10_symlink_raw_target_witness :
    fastPathResolve ⟨fun _ => .ok ⟨true⟩, fun _ => .ok "./real.js"⟩ "/exec/app" "./link.js"
      = .ok (some ⟨"./real.js", []⟩) ∧
    resolveInExecroot ⟨"bazel-out/k8-fastbuild/bin", "/exec"⟩
        ⟨fun _ => .ok ⟨true⟩, fun _ => .ok "./real.js"⟩
        (fun _ _ => ⟨"/exec/app/real.js", []⟩) "./link.js" ⟨"/exec/app", none⟩
      = .error (.escape (escapeMessage "bazel-out/k8-fastbuild/bin" "./real.js")) ∧
    jsStartsWith (pathJoin "/exec/app" "./real.js") "/exec" = true :=
  ⟨(c10_symlink_raw_target ⟨"bazel-out/k8-fastbuild/bin", "/exec"⟩
      ⟨fun _ => .ok ⟨true⟩, fun _ => .ok "./real.js"⟩ ⟨"/exec/app", none⟩
      "./link.js" "./real.js" rfl rfl rfl rfl rfl rfl).1,
   (c10_symlink_raw_target ⟨"bazel-out/k8-fastbuild/bin", "/exec"⟩
      ⟨fun _ => .ok ⟨true⟩, fun _ => .ok "./real.js"⟩ ⟨"/exec/app", none⟩
      "./link.js" "./real.js" rfl rfl rfl rfl rfl rfl).2
      (fun _ _ => ⟨"/exec/app/real.js", []⟩),
   rfl⟩

end RulesEsbuild
